import Mathlib

/-
Shallow embedding of the footo module manager's secure resolution and
command-synthesis core (src/footo.py and src/footo_secure.py).

Modelling conventions:
* Python strings are `List Char`; filesystem paths are lists of path
  segments (`Segs := List (List Char)`).
* Python exceptions are values of the inductive `FErr`, returned through
  `Except`.  The blanket `except Exception` re-wrapping inside
  `load_and_validate_meta` (which changes the exception *class*) is
  modelled by the `FErr.invalidWrapped` constructor; the re-wrapping in
  `validate_path` only rewrites the message and keeps the `SecurityError`
  class, so it is not given a separate constructor.
* Regular-expression checks are transcribed with Python `re` semantics:
  `$` in `re.match(p, s)` also matches just before one trailing newline
  at the end of `s`, and the character classes are taken in their ASCII
  reading (matching the names and versions the program manipulates).
* The filesystem is abstracted as a record `Fs` of the four primitives
  the code consults (`Path.resolve`, `Path.is_symlink`, `Path.exists`,
  `Path.is_dir`); `resolveSegs` is the purely lexical resolution used to
  build concrete instances without symlinks.
-/

namespace Footo

instance instDecEqExcept {ε α : Type} [DecidableEq ε] [DecidableEq α] :
    DecidableEq (Except ε α)
  | .error e, .error f =>
    if h : e = f then .isTrue (h ▸ rfl)
    else .isFalse fun hh => h (Except.error.inj hh)
  | .error _, .ok _ => .isFalse fun hh => Except.noConfusion hh
  | .ok _, .error _ => .isFalse fun hh => Except.noConfusion hh
  | .ok x, .ok y =>
    if h : x = y then .isTrue (h ▸ rfl)
    else .isFalse fun hh => h (Except.ok.inj hh)

abbrev Seg := List Char
abbrev Segs := List Seg

def squote : Char := '\''

def dquote : Char := '"'

/-- Constant `MAX_MODULE_NAME_LENGTH = 50` from footo_secure.py. -/
def MAX_MODULE_NAME_LENGTH : Nat := 50

/-- Constant `MAX_META_SIZE = 100 * 1024` from footo_secure.py. -/
def MAX_META_SIZE : Nat := 100 * 1024

/-- The five required descriptor fields of `load_and_validate_meta`. -/
inductive MField where
  | fName
  | fVersion
  | fDescription
  | fLang
  | fEntry
deriving DecidableEq, Repr

/-- Scopes searched by `find_module` (`community` is provisioned but never
searched, matching the code). -/
inductive Scope where
  | scLocal
  | scBundled
deriving DecidableEq, Repr

/-- Python exception values raised by the embedded functions.  Constructors
record the raising site and its structured payload instead of the formatted
message text.  `invalidWrapped e` is the `InvalidModuleError` produced by the
`except Exception` clause of `load_and_validate_meta` re-raising `e`. -/
inductive FErr where
  | validationEmpty
  | validationTooLong
  | validationBadChars
  | validationReserved
  | securityOversize
  | securityOutside
  | securitySymlink
  | invalidParse
  | invalidLang
  | invalidVersion
  | invalidExt
  | invalidMissingField (f : MField)
  | invalidWrapped (e : FErr)
  | moduleNotFound
  | footoCollision (s : Scope)
deriving DecidableEq, Repr

/-- The five exception classes of the error taxonomy
(`ValidationError`, `SecurityError`, `InvalidModuleError`,
`ModuleNotFoundError`, base `FootoError`). -/
inductive ErrClass where
  | validation
  | security
  | invalidModule
  | notFound
  | footoBase
deriving DecidableEq, Repr

/-- Which Python exception class each raised value belongs to. -/
def errClass : FErr → ErrClass
  | .validationEmpty => .validation
  | .validationTooLong => .validation
  | .validationBadChars => .validation
  | .validationReserved => .validation
  | .securityOversize => .security
  | .securityOutside => .security
  | .securitySymlink => .security
  | .invalidParse => .invalidModule
  | .invalidLang => .invalidModule
  | .invalidVersion => .invalidModule
  | .invalidExt => .invalidModule
  | .invalidMissingField _ => .invalidModule
  | .invalidWrapped _ => .invalidModule
  | .moduleNotFound => .notFound
  | .footoCollision _ => .footoBase

/-- Characters of the class `[a-zA-Z0-9_-]` used by `validate_module_name`. -/
def nameChar (c : Char) : Bool :=
  c.isAlpha || c.isDigit || c = '_' || c = '-'

/-- Drop one trailing newline, mirroring where Python's `$` anchor may
match inside `re.match(r'^...$', s)`. -/
def stripTrailingNl (s : List Char) : List Char :=
  if s.getLast? = some '\n' then s.dropLast else s

/-- Python `re.match(r'^[a-zA-Z0-9_-]+$', s)` succeeds: one or more class
characters, where `$` may also match just before one trailing newline. -/
def nameRegexMatch (s : List Char) : Bool :=
  let t := stripTrailingNl s
  !t.isEmpty && t.all nameChar

/-- Reserved Windows device names rejected by `validate_module_name`. -/
def reservedNames : List (List Char) :=
  ["con", "prn", "aux", "nul", "com1", "com2", "com3", "com4",
   "lpt1", "lpt2", "lpt3", "lpt4"].map String.toList

/-- Embedding of `validate_module_name` (footo_secure.py, lines 78-110):
empty check, length check, character-class regex, reserved-name check, in
that order; returns the name unchanged on success. -/
def validate_module_name (name : List Char) : Except FErr (List Char) :=
  if name = [] then .error .validationEmpty
  else if name.length > MAX_MODULE_NAME_LENGTH then .error .validationTooLong
  else if !nameRegexMatch name then .error .validationBadChars
  else if reservedNames.contains (name.map Char.toLower) then .error .validationReserved
  else .ok name

/-- Split a character list on a separator character (used to transcribe the
version regex structurally). -/
def splitOnSep (sep : Char) : List Char → List (List Char)
  | [] => [[]]
  | c :: rest =>
    if c = sep then [] :: splitOnSep sep rest
    else
      match splitOnSep sep rest with
      | [] => [[c]]
      | g :: gs => (c :: g) :: gs

/-- A nonempty all-digit group, i.e. one `\d+` unit of the version pattern. -/
def digitsGroup (g : List Char) : Bool :=
  !g.isEmpty && g.all Char.isDigit

/-- Python `re.match(r'^\d+\.\d+\.\d+$', s)` succeeds: exactly three
nonempty digit groups separated by dots, with `$` again allowed to match
just before one trailing newline. -/
def versionRegexMatch (s : List Char) : Bool :=
  match splitOnSep '.' (stripTrailingNl s) with
  | [a, b, c] => digitsGroup a && digitsGroup b && digitsGroup c
  | _ => false

/-- Spec-side definition, for comparison only.  Transcribes the spec's
"strict `MAJOR.MINOR.PATCH` numeric triplet": exactly three nonempty digit
groups separated by dots and nothing else. -/
def specVersionTriplet (s : List Char) : Bool :=
  match splitOnSep '.' s with
  | [a, b, c] => digitsGroup a && digitsGroup b && digitsGroup c
  | _ => false

/-- A parsed `meta.json` object, restricted to the five validated keys.
`none` models an absent key; non-string JSON values also fail every
subsequent check in the Python code, so string payloads lose no case the
claims depend on.  The optional `args` key is never validated. -/
structure MetaDict where
  mName : Option (List Char)
  mVersion : Option (List Char)
  mDescription : Option (List Char)
  mLang : Option (List Char)
  mEntry : Option (List Char)
deriving DecidableEq, Repr

/-- Outcome of `json.load` on the descriptor file. -/
inductive ParseOutcome where
  | parseError
  | parsed (m : MetaDict)
deriving DecidableEq, Repr

/-- First missing required field in the order
`['name', 'version', 'description', 'lang', 'entry']` of the code's loop. -/
def firstMissing (m : MetaDict) : Option MField :=
  if m.mName.isNone then some .fName
  else if m.mVersion.isNone then some .fVersion
  else if m.mDescription.isNone then some .fDescription
  else if m.mLang.isNone then some .fLang
  else if m.mEntry.isNone then some .fEntry
  else none

/-- The extension mandated for each language by `valid_extensions`
(`bash` maps to `.sh`, `pwsh` to `.ps1`). -/
def langExt (l : List Char) : List Char :=
  if l = "bash".toList then ".sh".toList else ".ps1".toList

/-- Embedding of `load_and_validate_meta` (footo_secure.py, lines 164-213).
The file's size and parse outcome stand in for the filesystem read.  Checks
in code order: size gate, JSON parse, required fields, language, version
regex, entry extension.  A `json.JSONDecodeError` surfaces directly as an
`InvalidModuleError`; every other exception raised inside the `try` body
(including the size gate's `SecurityError` and the `InvalidModuleError`s of
the field checks) is caught by `except Exception` and re-raised wrapped,
which is what `FErr.invalidWrapped` records. -/
def load_and_validate_meta (size : Nat) (content : ParseOutcome) :
    Except FErr MetaDict :=
  if size > MAX_META_SIZE then .error (.invalidWrapped .securityOversize)
  else
    match content with
    | .parseError => .error .invalidParse
    | .parsed m =>
      match firstMissing m with
      | some f => .error (.invalidWrapped (.invalidMissingField f))
      | none =>
        let l := m.mLang.getD []
        if !(l = "bash".toList || l = "pwsh".toList) then
          .error (.invalidWrapped .invalidLang)
        else if !versionRegexMatch (m.mVersion.getD []) then
          .error (.invalidWrapped .invalidVersion)
        else if !(langExt l).isSuffixOf (m.mEntry.getD []) then
          .error (.invalidWrapped .invalidExt)
        else .ok m

/-- Abstraction of the filesystem primitives consulted by the code:
`Path.resolve` (canonicalization, following symlinks and `..`),
`Path.is_symlink`, `Path.exists`, `Path.is_dir`. -/
structure Fs where
  resolve : Segs → Segs
  isSymlink : Segs → Bool
  existsPath : Segs → Bool
  isDir : Segs → Bool

/-- Purely lexical absolute-path resolution (the behaviour of
`Path.resolve` on a symlink-free tree): drops empty and `.` segments, a
`..` segment removes the previous one (and is dropped at the root, as on
POSIX). -/
def resolveSegs (segs : Segs) : Segs :=
  segs.foldl
    (fun acc s =>
      if s = [] then acc
      else if s = ['.'] then acc
      else if s = ['.', '.'] then acc.dropLast
      else acc ++ [s])
    []

/-- String form of an absolute path, as Python's `str(Path(...))`:
`/` followed by the `/`-joined segments (bare `/` for the empty list). -/
def pathStr (segs : Segs) : List Char :=
  '/' :: List.intercalate ['/'] segs

/-- Embedding of `validate_path` (footo_secure.py, lines 132-162): resolve
both paths, require the resolved path's *string* to start with the resolved
allowed root's string, then reject if the original path is a symlink;
return the resolved path.  The surrounding `except Exception` re-raises
with a new message but the class stays `SecurityError`, so it does not
change the structured result. -/
def validate_path (fs : Fs) (path allowed : Segs) : Except FErr Segs :=
  let resolved := fs.resolve path
  let allowedR := fs.resolve allowed
  if !(pathStr allowedR).isPrefixOf (pathStr resolved) then
    .error .securityOutside
  else if fs.isSymlink path then
    .error .securitySymlink
  else
    .ok resolved

/-- Spec-side definition, for comparison only.  Transcribes "strictly
nested under": the root's segments are a proper prefix of the path's
segments. -/
def specStrictlyNested (inner outer : Segs) : Bool :=
  outer.isPrefixOf inner && inner != outer

/-- `LOCAL_MODULES_DIR` relative to a modules root. -/
def localScopeDir (modulesDir : Segs) : Segs :=
  modulesDir ++ ["local".toList]

/-- `BUNDLED_MODULES_DIR` relative to a modules root. -/
def bundledScopeDir (modulesDir : Segs) : Segs :=
  modulesDir ++ ["bundled".toList]

/-- The scope loop of `find_module` (footo_secure.py, lines 337-347): for
each candidate in order, skip it unless it exists and is a directory, run
`validate_path` against the modules root, and on a `SecurityError` log and
continue with the next scope. -/
def searchScopes (fs : Fs) (modulesDir : Segs) :
    List (Segs × Scope) → Option (Segs × Scope)
  | [] => none
  | (p, sc) :: rest =>
    if fs.existsPath p && fs.isDir p then
      match validate_path fs p modulesDir with
      | .ok _ => some (p, sc)
      | .error _ => searchScopes fs modulesDir rest
    else searchScopes fs modulesDir rest

/-- Embedding of `find_module` (footo_secure.py, lines 319-348): validate
the name (discarding the returned value, as the code does), then search
`local` before `bundled`; `Option.none` models the `(None, None)` result. -/
def find_module (fs : Fs) (modulesDir : Segs) (name : Seg) :
    Except FErr (Option (Segs × Scope)) :=
  match validate_module_name name with
  | .error e => .error e
  | .ok _ =>
    .ok (searchScopes fs modulesDir
      [(localScopeDir modulesDir ++ [name], .scLocal),
       (bundledScopeDir modulesDir ++ [name], .scBundled)])

/-- Whether a scope's candidate directory passes the resolver's gate:
it exists, is a directory, and `validate_path` accepts it. -/
def scopePasses (fs : Fs) (modulesDir p : Segs) : Bool :=
  fs.existsPath p && fs.isDir p &&
    (match validate_path fs p modulesDir with
     | .ok _ => true
     | .error _ => false)

/-- The descriptor content written by `create_module`
(footo_secure.py, lines 427-433). -/
def defaultMeta (name : Seg) : MetaDict :=
  { mName := some name
    mVersion := some ("0.1.0".toList)
    mDescription := some ("A new ".toList ++ name ++ " module.".toList)
    mLang := some ("bash".toList)
    mEntry := some ("script.sh".toList) }

/-- Filesystem mutations performed by `create_module`, in order. -/
inductive FsOp where
  | mkdirOp (p : Segs)
  | chmodOp (p : Segs)
  | writeMetaOp (p : Segs) (m : MetaDict)
  | writeScriptOp (p : Segs)
deriving DecidableEq, Repr

/-- Embedding of `create_module` (footo_secure.py, lines 394-468): validate
the name, resolve it through `find_module`, fail with a collision
(`FootoError`) if any scope already holds it, otherwise perform the
creation writes.  The returned list is the trace of filesystem mutations;
the editor-open step is best-effort and mutates nothing. -/
def create_module (fs : Fs) (modulesDir : Segs) (name : Seg) :
    List FsOp × Except FErr Unit :=
  match validate_module_name name with
  | .error e => ([], .error e)
  | .ok n =>
    match find_module fs modulesDir n with
    | .error e => ([], .error e)
    | .ok (some (_, sc)) => ([], .error (.footoCollision sc))
    | .ok none =>
      let modulePath := localScopeDir modulesDir ++ [n]
      let metaFile := modulePath ++ ["meta.json".toList]
      let scriptFile := modulePath ++ ["script.sh".toList]
      ([.mkdirOp modulePath, .chmodOp modulePath,
        .writeMetaOp metaFile (defaultMeta n), .chmodOp metaFile,
        .writeScriptOp scriptFile, .chmodOp scriptFile],
       .ok ())

/-- Characters Python's `shlex.quote` treats as safe (everything outside
its `_find_unsafe` class, with ASCII `\w`): letters, digits, underscore,
and the characters `@ % + = : , . - /` (slash last to keep this comment
well formed). -/
def shlexSafe (c : Char) : Bool :=
  c.isAlpha || c.isDigit || c = '_' || c = '@' || c = '%' || c = '+' ||
  c = '=' || c = ':' || c = ',' || c = '.' || c = '/' || c = '-'

/-- The `s.replace("'", "'\"'\"'")` step of `shlex.quote`. -/
def quoteReplace : List Char → List Char
  | [] => []
  | c :: rest =>
    if c = squote then
      squote :: dquote :: squote :: dquote :: squote :: quoteReplace rest
    else c :: quoteReplace rest

/-- Embedding of Python's `shlex.quote`: empty strings become `''`, strings
of safe characters are returned unchanged, anything else is wrapped in
single quotes with embedded single quotes escaped as `'"'"'`. -/
def shlexQuote (s : List Char) : List Char :=
  if s = [] then [squote, squote]
  else if s.all shlexSafe then s
  else squote :: (quoteReplace s ++ [squote])

/-- The `f"\'{arg}\'"` escaping of footo.py's `run_module` (line 207). -/
def naiveQuote (s : List Char) : List Char :=
  squote :: (s ++ [squote])

/-- Python's `' '.join`. -/
def joinSpace : List (List Char) → List Char
  | [] => []
  | [a] => a
  | a :: b :: rest => a ++ ' ' :: joinSpace (b :: rest)

/-- The two languages admitted by metadata validation; `run_module` raises
for any other string before synthesizing a command. -/
inductive Lang where
  | bash
  | pwsh
deriving DecidableEq, Repr

/-- The sourcing keyword chosen by `run_module` (`source` for bash,
`.` for pwsh). -/
def keywordFor : Lang → List Char
  | .bash => "source".toList
  | .pwsh => ".".toList

/-- The command line printed by footo_secure.py's `run_module` (line 583):
`f"{command_prefix} \"{entry_script_path}\" {' '.join(escaped_args)}"`,
with `escaped_args = [shlex.quote(arg) for arg in args]`. -/
def run_module_line (lang : Lang) (entryPath : List Char)
    (args : List (List Char)) : List Char :=
  keywordFor lang ++
    (' ' :: dquote :: (entryPath ++
      (dquote :: ' ' :: joinSpace (args.map shlexQuote))))

/-- The command line printed by footo.py's `run_module` (line 210): same
format string, but with the naive `f"\'{arg}\'"` argument escaping. -/
def run_module_line_naive (lang : Lang) (entryPath : List Char)
    (args : List (List Char)) : List Char :=
  keywordFor lang ++
    (' ' :: dquote :: (entryPath ++
      (dquote :: ' ' :: joinSpace (args.map naiveQuote))))

/-- Shell word-splitting separators (space, tab, newline). -/
def isSep (c : Char) : Bool :=
  c = ' ' || c = '\t' || c = '\n'

/-- Quoting state of the shell tokenizer: outside quotes, inside `'...'`,
inside `"..."`. -/
inductive QMode where
  | norm
  | single
  | double
deriving DecidableEq, Repr

/-- One-pass POSIX-style word splitter used to model how the target shell
re-splits the printed command line: unquoted separators end words,
`'...'` protects everything, `"..."` protects everything except the
closing quote (parameter/command expansion inside double quotes is outside
this model; the positive theorems therefore hypothesize that the entry
path contains no double-quote character, and `shlex.quote` never leaves
expansion-active characters outside single quotes).  `cur` is the word
accumulated so far and `started` records whether a word is open (so `''`
yields an empty word).  A line ending inside a quote has no valid split
(`none`). -/
def splitAux : QMode → List Char → Bool → List Char → Option (List (List Char))
  | .norm, cur, started, [] => some (if started then [cur] else [])
  | .single, _, _, [] => none
  | .double, _, _, [] => none
  | .norm, cur, started, c :: rest =>
    if isSep c then
      if started then (splitAux .norm [] false rest).map (fun ws => cur :: ws)
      else splitAux .norm [] false rest
    else if c = squote then splitAux .single cur true rest
    else if c = dquote then splitAux .double cur true rest
    else splitAux .norm (cur ++ [c]) true rest
  | .single, cur, _, c :: rest =>
    if c = squote then splitAux .norm cur true rest
    else splitAux .single (cur ++ [c]) true rest
  | .double, cur, _, c :: rest =>
    if c = dquote then splitAux .norm cur true rest
    else splitAux .double (cur ++ [c]) true rest

/-- Split a full line into shell words. -/
def shellSplit (line : List Char) : Option (List (List Char)) :=
  splitAux .norm [] false line

lemma shlexSafe_plain {c : Char} (h : shlexSafe c = true) :
    isSep c = false ∧ c ≠ squote ∧ c ≠ dquote := by
  refine ⟨?_, ?_, ?_⟩
  · rcases hsep : isSep c with _ | _
    · rfl
    · exfalso
      simp only [isSep, Bool.or_eq_true, decide_eq_true_eq] at hsep
      rcases hsep with (h1 | h1) | h1 <;> subst h1 <;> exact absurd h (by decide)
  · intro h1; subst h1; exact absurd h (by decide)
  · intro h1; subst h1; exact absurd h (by decide)

lemma step_norm_space (cur rest) :
    splitAux .norm cur true (' ' :: rest) =
    (splitAux .norm [] false rest).map (fun ws => cur :: ws) := by
  simp only [splitAux]
  rw [if_pos (by decide : isSep ' ' = true)]
  simp

lemma step_norm_squote (cur : List Char) (started : Bool) (rest) :
    splitAux .norm cur started (squote :: rest) = splitAux .single cur true rest := by
  simp only [splitAux]
  rw [if_neg (by decide : ¬ (isSep squote = true))]
  simp

lemma step_norm_dquote (cur : List Char) (started : Bool) (rest) :
    splitAux .norm cur started (dquote :: rest) = splitAux .double cur true rest := by
  simp only [splitAux]
  rw [if_neg (by decide : ¬ (isSep dquote = true)),
    if_neg (by decide : ¬ (dquote = squote))]
  simp

lemma step_norm_plain {c : Char} (h1 : isSep c = false) (h2 : c ≠ squote)
    (h3 : c ≠ dquote) (cur : List Char) (started : Bool) (rest : List Char) :
    splitAux .norm cur started (c :: rest) = splitAux .norm (cur ++ [c]) true rest := by
  simp only [splitAux]
  rw [if_neg (by simp [h1]), if_neg h2, if_neg h3]

lemma step_single_squote (cur : List Char) (b : Bool) (rest) :
    splitAux .single cur b (squote :: rest) = splitAux .norm cur true rest := by
  simp only [splitAux]
  simp

lemma step_single_other {c : Char} (h : c ≠ squote) (cur : List Char) (b : Bool)
    (rest : List Char) :
    splitAux .single cur b (c :: rest) = splitAux .single (cur ++ [c]) true rest := by
  simp only [splitAux]
  rw [if_neg h]

lemma step_double_dquote (cur : List Char) (b : Bool) (rest) :
    splitAux .double cur b (dquote :: rest) = splitAux .norm cur true rest := by
  simp only [splitAux]
  simp

lemma step_double_other {c : Char} (h : c ≠ dquote) (cur : List Char) (b : Bool)
    (rest : List Char) :
    splitAux .double cur b (c :: rest) = splitAux .double (cur ++ [c]) true rest := by
  simp only [splitAux]
  rw [if_neg h]

lemma splitAux_double_chunk (p : List Char) (h : ∀ c ∈ p, c ≠ dquote)
    (cur rest : List Char) :
    splitAux .double cur true (p ++ rest) = splitAux .double (cur ++ p) true rest := by
  induction p generalizing cur with
  | nil => simp
  | cons c p ih =>
    rw [List.cons_append, step_double_other (h c (by simp)),
      ih (fun x hx => h x (by simp [hx]))]
    simp

lemma splitAux_quoteReplace (a : List Char) (cur rest : List Char) :
    splitAux .single cur true (quoteReplace a ++ squote :: rest) =
    splitAux .norm (cur ++ a) true rest := by
  induction a generalizing cur with
  | nil =>
    rw [quoteReplace, List.nil_append, step_single_squote]
    simp
  | cons c a ih =>
    by_cases hc : c = squote
    · subst hc
      rw [quoteReplace, if_pos rfl]
      rw [List.cons_append, step_single_squote]
      rw [List.cons_append, step_norm_dquote]
      rw [List.cons_append, step_double_other (by decide : squote ≠ dquote)]
      rw [List.cons_append, step_double_dquote]
      rw [List.cons_append, step_norm_squote]
      rw [ih]
      simp
    · rw [quoteReplace, if_neg hc, List.cons_append, step_single_other hc, ih]
      simp

lemma splitAux_safe_chunk (a : List Char) (h : ∀ c ∈ a, shlexSafe c = true)
    (cur : List Char) (started : Bool) (rest : List Char) :
    splitAux .norm cur started (a ++ rest) =
    splitAux .norm (cur ++ a) (started || !a.isEmpty) rest := by
  induction a generalizing cur started with
  | nil => simp
  | cons c a ih =>
    obtain ⟨h1, h2, h3⟩ := shlexSafe_plain (h c (by simp))
    rw [List.cons_append, step_norm_plain h1 h2 h3,
      ih (fun x hx => h x (by simp [hx]))]
    simp

lemma splitAux_quote_chunk (a : List Char) (cur : List Char) (started : Bool)
    (rest : List Char) :
    splitAux .norm cur started (shlexQuote a ++ rest) =
    splitAux .norm (cur ++ a) true rest := by
  by_cases ha : a = []
  · subst ha
    show splitAux .norm cur started ([squote, squote] ++ rest) = _
    rw [List.cons_append, step_norm_squote, List.cons_append]
    rw [List.nil_append, step_single_squote]
    simp
  · by_cases hs : a.all shlexSafe
    · rw [shlexQuote, if_neg ha, if_pos hs,
        splitAux_safe_chunk a (fun c hc => List.all_eq_true.mp hs c hc)]
      obtain ⟨c, t, rfl⟩ := List.exists_cons_of_ne_nil ha
      simp
    · rw [shlexQuote, if_neg ha, if_neg hs]
      rw [List.cons_append, step_norm_squote, List.append_assoc]
      rw [List.singleton_append, splitAux_quoteReplace]

lemma splitAux_join_args (args : List (List Char)) :
    splitAux .norm [] false (joinSpace (args.map shlexQuote)) = some args := by
  induction args with
  | nil =>
    rw [List.map_nil, joinSpace, splitAux]
    simp
  | cons a t ih =>
    cases t with
    | nil =>
      rw [List.map_cons, List.map_nil, joinSpace]
      have h := splitAux_quote_chunk a [] false []
      rw [List.append_nil] at h
      rw [h, List.nil_append, splitAux]
      simp
    | cons b t' =>
      rw [List.map_cons, List.map_cons, joinSpace, splitAux_quote_chunk,
        List.nil_append, step_norm_space]
      rw [List.map_cons] at ih
      rw [ih]
      rfl

lemma validate_module_name_ok {s t : List Char}
    (h : validate_module_name s = .ok t) : t = s := by
  unfold validate_module_name at h
  split_ifs at h
  all_goals first
    | exact Except.noConfusion h
    | (injection h with h; exact h.symm)

/-- Claim C1 (amended): in footo_secure.py's `run_module`, every argument
is quoted with `shlex.quote` and the entry path is wrapped in double
quotes, so re-splitting the printed line yields exactly the sourcing
keyword, the entry path, and the original arguments — for every language,
every argument list, and every entry path containing no double-quote
character (the double-quote wrapping, unlike `shlex.quote`, does not
protect a double quote inside the path itself). -/
theorem run_module_line_resplit (lang : Lang) (entryPath : List Char)
    (args : List (List Char)) (hpath : ∀ c ∈ entryPath, c ≠ dquote) :
    shellSplit (run_module_line lang entryPath args) =
    some (keywordFor lang :: entryPath :: args) := by
  have hkw : ∀ c ∈ keywordFor lang, shlexSafe c = true := by
    cases lang <;> decide
  have hkwne : (keywordFor lang).isEmpty = false := by
    cases lang <;> decide
  unfold shellSplit run_module_line
  rw [splitAux_safe_chunk (keywordFor lang) hkw, List.nil_append, hkwne]
  simp only [Bool.not_false, Bool.or_true]
  rw [step_norm_space, step_norm_dquote,
    splitAux_double_chunk entryPath hpath, List.nil_append,
    step_double_dquote, step_norm_space, splitAux_join_args]
  rfl

/-- Witness for C1's amended theorem at the spec's own example input
`build(bash, "/root/x/script.sh", ["a b", "it's"])`. -/
theorem run_module_line_resplit_witness :
    shellSplit (run_module_line .bash ("/root/x/script.sh".toList)
      [['a', ' ', 'b'], ['i', 't', '\'', 's']]) =
    some (keywordFor .bash :: "/root/x/script.sh".toList ::
      [['a', ' ', 'b'], ['i', 't', '\'', 's']]) :=
  run_module_line_resplit .bash ("/root/x/script.sh".toList)
    [['a', ' ', 'b'], ['i', 't', '\'', 's']] (by decide)

/-- Counterexample for C1 as stated: footo.py's naive `'...'` wrapping
garbles the spec's own example (the argument `it's` leaves an unterminated
quote, so the line has no valid split), and footo_secure.py's double-quoted
entry path is mis-split as soon as the path contains a double quote. -/
theorem run_module_line_cex :
    (shellSplit (run_module_line_naive .bash ("/root/x/script.sh".toList)
        [['a', ' ', 'b'], ['i', 't', '\'', 's']]) = none
      ∧ (none : Option (List (List Char))) ≠
          some (keywordFor .bash :: "/root/x/script.sh".toList ::
            [['a', ' ', 'b'], ['i', 't', '\'', 's']]))
    ∧ (shellSplit (run_module_line .bash
          ("/r/a".toList ++ [dquote, ' ', 'b', dquote] ++ ".sh".toList) []) =
        some ["source".toList, "/r/a".toList, "b.sh".toList]
      ∧ some ["source".toList, "/r/a".toList, "b.sh".toList] ≠
          some [keywordFor .bash,
            "/r/a".toList ++ [dquote, ' ', 'b', dquote] ++ ".sh".toList]) := by
  refine ⟨⟨?_, ?_⟩, ?_, ?_⟩ <;> decide

/-- Claim C2 (amended): PathGuard's characterization — `validate_path`
succeeds exactly when the canonical path's *string* extends the canonical
root's string and the path is not a symlink, returning the canonical path.
String-prefix containment is weaker than strict nesting (see the
counterexample). -/
theorem validate_path_ok_iff (fs : Fs) (p a r : Segs) :
    validate_path fs p a = .ok r ↔
      (r = fs.resolve p ∧
        (pathStr (fs.resolve a)).isPrefixOf (pathStr (fs.resolve p)) = true ∧
        fs.isSymlink p = false) := by
  unfold validate_path
  rcases hpre : (pathStr (fs.resolve a)).isPrefixOf (pathStr (fs.resolve p)) with _ | _
  · simp [hpre]
  · rcases hsym : fs.isSymlink p with _ | _
    · simp [hpre, hsym, eq_comm]
    · simp [hpre, hsym]

/-- Counterexample for C2 as stated: with a symlink-free filesystem,
`validate_path` accepts `/a/bc` against the allowed root `/a/b` (its string
starts with the root's string), yet `/a/bc` is not strictly nested under
the canonical root — it is a sibling sharing a name prefix. -/
theorem validate_path_prefix_cex :
    validate_path ⟨resolveSegs, fun _ => false, fun _ => true, fun _ => true⟩
        [['a'], ['b', 'c']] [['a'], ['b']] = .ok [['a'], ['b', 'c']]
    ∧ specStrictlyNested [['a'], ['b', 'c']] (resolveSegs [['a'], ['b']]) = false := by
  constructor <;> decide

/-- Claim C3: a path that is itself a symbolic link is always rejected by
`validate_path` with a `SecurityError`, whatever its target resolves to:
if the prefix check fails the error is the outside-root `SecurityError`,
otherwise the symlink check fires. -/
theorem validate_path_symlink_rejected (fs : Fs) (p a : Segs)
    (h : fs.isSymlink p = true) :
    ∃ e, validate_path fs p a = .error e ∧ errClass e = .security := by
  rcases hpre : (pathStr (fs.resolve a)).isPrefixOf (pathStr (fs.resolve p)) with _ | _
  · exact ⟨.securityOutside, by simp [validate_path, hpre], rfl⟩
  · exact ⟨.securitySymlink, by simp [validate_path, hpre, h], rfl⟩

/-- Witness for C3's theorem: a symlink whose target is the allowed root's
own subtree is still rejected. -/
theorem validate_path_symlink_rejected_witness :
    ∃ e, validate_path ⟨resolveSegs, fun _ => true, fun _ => true, fun _ => true⟩
        [['a'], ['b']] [['a']] = .error e ∧ errClass e = .security :=
  validate_path_symlink_rejected
    ⟨resolveSegs, fun _ => true, fun _ => true, fun _ => true⟩
    [['a'], ['b']] [['a']] rfl

/-- Claim C4: the name validator accepts `"abc\n"` even though `'\n'` lies
outside `[A-Za-z0-9_-]` — Python's `$` anchor in
`re.match(r'^[a-zA-Z0-9_-]+$', name)` also matches just before a trailing
newline, contradicting the validator's stated character-class rule. -/
theorem validate_module_name_trailing_newline :
    validate_module_name ("abc".toList ++ ['\n']) =
      .ok ("abc".toList ++ ['\n'])
    ∧ nameChar '\n' = false := by
  constructor <;> decide

lemma load_meta_ok_eq {size : Nat} {m m' : MetaDict}
    (h : load_and_validate_meta size (.parsed m) = .ok m') : m' = m := by
  unfold load_and_validate_meta at h
  by_cases hgt : size > MAX_META_SIZE
  · rw [if_pos hgt] at h; exact Except.noConfusion h
  · rw [if_neg hgt] at h
    rcases hf : firstMissing m with _ | f
    · simp only [hf] at h
      split_ifs at h
      all_goals first
        | exact Except.noConfusion h
        | exact (Except.ok.inj h).symm
    · simp only [hf] at h
      exact Except.noConfusion h

lemma load_meta_missing {size : Nat} (hsz : size ≤ MAX_META_SIZE)
    {m : MetaDict} {f : MField} (hf : firstMissing m = some f) :
    load_and_validate_meta size (.parsed m) =
      .error (.invalidWrapped (.invalidMissingField f)) := by
  unfold load_and_validate_meta
  rw [if_neg (by omega)]
  simp only [hf]

lemma load_meta_ok_fields {size : Nat} {m : MetaDict}
    (h : load_and_validate_meta size (.parsed m) = .ok m) :
    firstMissing m = none := by
  unfold load_and_validate_meta at h
  by_cases hgt : size > MAX_META_SIZE
  · rw [if_pos hgt] at h; exact Except.noConfusion h
  · rw [if_neg hgt] at h
    rcases hf : firstMissing m with _ | f
    · rfl
    · simp only [hf] at h
      exact Except.noConfusion h

lemma load_meta_allsome_iff (size : Nat) (hsz : size ≤ MAX_META_SIZE)
    (nv vv dv lv ev : List Char) :
    load_and_validate_meta size
        (.parsed ⟨some nv, some vv, some dv, some lv, some ev⟩) =
      .ok ⟨some nv, some vv, some dv, some lv, some ev⟩ ↔
      ((lv = "bash".toList ∨ lv = "pwsh".toList) ∧
        versionRegexMatch vv = true ∧ (langExt lv).isSuffixOf ev = true) := by
  unfold load_and_validate_meta
  rw [if_neg (by omega)]
  have hf : firstMissing ⟨some nv, some vv, some dv, some lv, some ev⟩ = none := rfl
  simp only [hf, Option.getD_some]
  constructor
  · intro h
    by_cases hb1 : (!(decide (lv = "bash".toList) || decide (lv = "pwsh".toList))) = true
    · rw [if_pos hb1] at h; exact Except.noConfusion h
    · rw [if_neg hb1] at h
      by_cases hb2 : (!versionRegexMatch vv) = true
      · rw [if_pos hb2] at h; exact Except.noConfusion h
      · rw [if_neg hb2] at h
        by_cases hb3 : (!(langExt lv).isSuffixOf ev) = true
        · rw [if_pos hb3] at h; exact Except.noConfusion h
        · refine ⟨or_iff_not_imp_left.mpr (by simpa using hb1), ?_, ?_⟩
          · simpa using hb2
          · simpa using hb3
  · rintro ⟨h1, h2, h3⟩
    have hc1 : (!(decide (lv = "bash".toList) || decide (lv = "pwsh".toList))) = false := by
      rcases h1 with h | h <;> simp [h]
    simp [hc1, h2, h3]
    exact fun hA => h1.resolve_left hA

/-- Claim C5 (amended): metadata validation is all-or-nothing.  Under the
size ceiling, a parsed descriptor is returned (unchanged, never partially)
iff all five required fields are present, `lang` is `bash` or `pwsh`, the
version matches `^\d+\.\d+\.\d+$` under Python semantics (which also
accepts one trailing newline), and `entry` ends in the extension mandated
by `lang`; a descriptor with a missing required field fails with the error
naming the first missing field. -/
theorem load_meta_all_or_nothing (size : Nat) (m : MetaDict)
    (hsz : size ≤ MAX_META_SIZE) :
    (load_and_validate_meta size (.parsed m) = .ok m ↔
      (m.mName.isSome = true ∧ m.mVersion.isSome = true ∧
        m.mDescription.isSome = true ∧ m.mLang.isSome = true ∧
        m.mEntry.isSome = true ∧
        (m.mLang = some ("bash".toList) ∨ m.mLang = some ("pwsh".toList)) ∧
        versionRegexMatch (m.mVersion.getD []) = true ∧
        (langExt (m.mLang.getD [])).isSuffixOf (m.mEntry.getD []) = true))
    ∧ (∀ m' : MetaDict, load_and_validate_meta size (.parsed m) = .ok m' → m' = m)
    ∧ (∀ f : MField, firstMissing m = some f →
        load_and_validate_meta size (.parsed m) =
          .error (.invalidWrapped (.invalidMissingField f))) := by
  refine ⟨?_, fun m' hm' => load_meta_ok_eq hm', fun f hf => load_meta_missing hsz hf⟩
  obtain ⟨n, v, d, l, e⟩ := m
  cases n <;> cases v <;> cases d <;> cases l <;> cases e <;>
    first
      | (rw [load_meta_allsome_iff size hsz]; simp)
      | (constructor
         · intro h
           have hnone := load_meta_ok_fields h
           simp [firstMissing] at hnone
         · intro hR
           simp at hR)

/-- Witness for C5's amended theorem: a fully well-formed descriptor
validates and is returned unchanged. -/
theorem load_meta_all_or_nothing_witness :
    load_and_validate_meta 0
        (.parsed ⟨some ("x".toList), some ("1.2.3".toList), some ("d".toList),
          some ("bash".toList), some ("script.sh".toList)⟩) =
      .ok ⟨some ("x".toList), some ("1.2.3".toList), some ("d".toList),
        some ("bash".toList), some ("script.sh".toList)⟩ :=
  (load_meta_all_or_nothing 0
    ⟨some ("x".toList), some ("1.2.3".toList), some ("d".toList),
      some ("bash".toList), some ("script.sh".toList)⟩
    (by decide)).1.mpr (by decide)

/-- Counterexample for C5 as stated: a descriptor whose version is
`"1.2.3\n"` validates successfully, yet that version is not a strict
`MAJOR.MINOR.PATCH` numeric triplet (Python's `$` matches before the
trailing newline). -/
theorem load_meta_version_newline_cex :
    load_and_validate_meta 0
        (.parsed ⟨some ("x".toList), some ("1.2.3".toList ++ ['\n']),
          some ("d".toList), some ("bash".toList), some ("script.sh".toList)⟩) =
      .ok ⟨some ("x".toList), some ("1.2.3".toList ++ ['\n']),
        some ("d".toList), some ("bash".toList), some ("script.sh".toList)⟩
    ∧ specVersionTriplet ("1.2.3".toList ++ ['\n']) = false := by
  constructor <;> decide

/-- Claim C6: when a valid module name has a passing candidate directory
(existing, a directory, and accepted by `validate_path`) in both the local
and the bundled scope, `find_module` returns the local candidate with scope
`local` — local always shadows bundled. -/
theorem find_module_local_shadows (fs : Fs) (modulesDir : Segs) (name : Seg)
    (hv : validate_module_name name = .ok name)
    (hle : fs.existsPath (localScopeDir modulesDir ++ [name]) = true)
    (hld : fs.isDir (localScopeDir modulesDir ++ [name]) = true)
    (hlg : ∃ q, validate_path fs (localScopeDir modulesDir ++ [name]) modulesDir = .ok q)
    (hbe : fs.existsPath (bundledScopeDir modulesDir ++ [name]) = true)
    (hbd : fs.isDir (bundledScopeDir modulesDir ++ [name]) = true)
    (hbg : ∃ q, validate_path fs (bundledScopeDir modulesDir ++ [name]) modulesDir = .ok q) :
    find_module fs modulesDir name =
      .ok (some (localScopeDir modulesDir ++ [name], .scLocal)) := by
  obtain ⟨q, hq⟩ := hlg
  simp [find_module, hv, searchScopes, hle, hld, hq]

/-- Witness for C6's theorem on a concrete symlink-free filesystem where
both scope candidates exist and pass the guard. -/
theorem find_module_local_shadows_witness :
    find_module ⟨resolveSegs, fun _ => false, fun _ => true, fun _ => true⟩
        [['m']] ("x".toList) =
      .ok (some (localScopeDir [['m']] ++ ["x".toList], .scLocal)) :=
  find_module_local_shadows
    ⟨resolveSegs, fun _ => false, fun _ => true, fun _ => true⟩
    [['m']] ("x".toList) (by decide) rfl rfl
    ⟨[['m'], "local".toList, "x".toList], by decide⟩ rfl rfl
    ⟨[['m'], "bundled".toList, "x".toList], by decide⟩

/-- Claim C7: if the name is already resolvable in any scope,
`create_module` fails with the collision `FootoError` and its trace of
filesystem mutations is empty — the collision check precedes every write. -/
theorem create_module_collision_no_writes (fs : Fs) (modulesDir : Segs)
    (name : Seg) (p : Segs) (sc : Scope)
    (hfind : find_module fs modulesDir name = .ok (some (p, sc))) :
    create_module fs modulesDir name = ([], .error (.footoCollision sc))
    ∧ errClass (.footoCollision sc) = .footoBase := by
  refine ⟨?_, rfl⟩
  unfold create_module
  rcases hv : validate_module_name name with e | n
  · have : find_module fs modulesDir name = .error e := by
      simp [find_module, hv]
    rw [this] at hfind
    exact Except.noConfusion hfind
  · obtain rfl := validate_module_name_ok hv
    dsimp only
    rw [hfind]

/-- Witness for C7's theorem: creating a module that already resolves in
the local scope performs no writes and reports the collision. -/
theorem create_module_collision_no_writes_witness :
    create_module ⟨resolveSegs, fun _ => false, fun _ => true, fun _ => true⟩
        [['m']] ("x".toList) = ([], .error (.footoCollision .scLocal))
    ∧ errClass (.footoCollision .scLocal) = .footoBase :=
  create_module_collision_no_writes
    ⟨resolveSegs, fun _ => false, fun _ => true, fun _ => true⟩
    [['m']] ("x".toList) (localScopeDir [['m']] ++ ["x".toList]) .scLocal
    (by decide)

/-- Claim C8 (amended): an oversized descriptor file is rejected before
parsing — the result does not depend on the file's content — but the
`SecurityError` raised by `validate_file_size` is caught by the blanket
`except Exception` of `load_and_validate_meta` and re-raised, so the
surfaced failure is an `InvalidModuleError`, not a `SecurityError`. -/
theorem load_meta_oversize_before_parse (size : Nat) (content : ParseOutcome)
    (h : size > MAX_META_SIZE) :
    load_and_validate_meta size content =
      .error (.invalidWrapped .securityOversize)
    ∧ errClass (.invalidWrapped .securityOversize) = .invalidModule := by
  refine ⟨?_, rfl⟩
  unfold load_and_validate_meta
  rw [if_pos h]

/-- Witness for C8's amended theorem at one byte over the ceiling, on a
file that does not even parse. -/
theorem load_meta_oversize_before_parse_witness :
    load_and_validate_meta (MAX_META_SIZE + 1) .parseError =
      .error (.invalidWrapped .securityOversize)
    ∧ errClass (.invalidWrapped .securityOversize) = .invalidModule :=
  load_meta_oversize_before_parse (MAX_META_SIZE + 1) .parseError (by decide)

/-- Counterexample for C8 as stated: the oversize failure surfaces with
class `InvalidModuleError`, not `SecurityError`. -/
theorem load_meta_oversize_class_cex :
    load_and_validate_meta (MAX_META_SIZE + 1) .parseError =
      .error (.invalidWrapped .securityOversize)
    ∧ errClass (.invalidWrapped .securityOversize) ≠ ErrClass.security := by
  constructor <;> decide


/-- Claim C9: for a valid name, `find_module` returns the first scope in
priority order whose candidate passes; a `PathGuard` failure in the local
scope does not abort the lookup (the bundled candidate is still returned),
and only when no scope passes does resolution yield the not-found result
`none`. -/
theorem find_module_first_passing (fs : Fs) (modulesDir : Segs) (name : Seg)
    (hv : validate_module_name name = .ok name) :
    find_module fs modulesDir name = .ok (
      if scopePasses fs modulesDir (localScopeDir modulesDir ++ [name]) then
        some (localScopeDir modulesDir ++ [name], .scLocal)
      else if scopePasses fs modulesDir (bundledScopeDir modulesDir ++ [name]) then
        some (bundledScopeDir modulesDir ++ [name], .scBundled)
      else none) := by
  rcases hle : fs.existsPath (localScopeDir modulesDir ++ [name]) with _ | _ <;>
    rcases hld : fs.isDir (localScopeDir modulesDir ++ [name]) with _ | _ <;>
    rcases hlg : validate_path fs (localScopeDir modulesDir ++ [name]) modulesDir with el | ql <;>
    rcases hbe : fs.existsPath (bundledScopeDir modulesDir ++ [name]) with _ | _ <;>
    rcases hbd : fs.isDir (bundledScopeDir modulesDir ++ [name]) with _ | _ <;>
    rcases hbg : validate_path fs (bundledScopeDir modulesDir ++ [name]) modulesDir with eb | qb <;>
    simp [find_module, hv, searchScopes, scopePasses, hle, hld, hlg, hbe, hbd, hbg]

/-- Witness for C9's theorem on a filesystem whose local candidate exists
but fails the guard (it resolves outside the modules root) while the
bundled candidate passes: resolution continues and returns bundled. -/
theorem find_module_first_passing_witness :
    find_module
        ⟨fun p => if p = localScopeDir [['m']] ++ ["x".toList] then [['z']] else p,
          fun _ => false, fun _ => true, fun _ => true⟩
        [['m']] ("x".toList) =
      .ok (
        if scopePasses
            ⟨fun p => if p = localScopeDir [['m']] ++ ["x".toList] then [['z']] else p,
              fun _ => false, fun _ => true, fun _ => true⟩
            [['m']] (localScopeDir [['m']] ++ ["x".toList]) then
          some (localScopeDir [['m']] ++ ["x".toList], .scLocal)
        else if scopePasses
            ⟨fun p => if p = localScopeDir [['m']] ++ ["x".toList] then [['z']] else p,
              fun _ => false, fun _ => true, fun _ => true⟩
            [['m']] (bundledScopeDir [['m']] ++ ["x".toList]) then
          some (bundledScopeDir [['m']] ++ ["x".toList], .scBundled)
        else none) :=
  find_module_first_passing
    ⟨fun p => if p = localScopeDir [['m']] ++ ["x".toList] then [['z']] else p,
      fun _ => false, fun _ => true, fun _ => true⟩
    [['m']] ("x".toList) (by decide)

/-- Claim C10: the descriptor written by `create_module` (name equal to the
directory name, version `0.1.0`, lang `bash`, entry `script.sh`, non-empty
description) passes metadata validation unchanged for every valid module
name and every on-disk size within the ceiling. -/
theorem created_meta_validates (name : Seg) (size : Nat)
    (hv : validate_module_name name = .ok name) (hsz : size ≤ MAX_META_SIZE) :
    load_and_validate_meta size (.parsed (defaultMeta name)) =
      .ok (defaultMeta name) := by
  rw [defaultMeta, load_meta_allsome_iff size hsz]
  refine ⟨Or.inl rfl, by decide, by decide⟩

/-- Witness for C10's theorem: the descriptor created for module `m`
validates. -/
theorem created_meta_validates_witness :
    load_and_validate_meta 0 (.parsed (defaultMeta ("m".toList))) =
      .ok (defaultMeta ("m".toList)) :=
  created_meta_validates ("m".toList) 0 (by decide) (by decide)

end Footo
